import Mathlib

/-!
Shallow embedding of the replication core of the sidecus/raft repository
(package `raft`): per-follower index bookkeeping (`Peer`), the peer manager
(`PeerManager`), the leader commit scan, the replication round preparation,
and the vote/term handling of the role state machine.

Machine integers: the Go code uses `int` for terms and log indices, with
values small enough that overflow never occurs; they are modelled as `Int`.
Goroutines, locks, timers and logging are elided; functions that `panic`
in Go (fatal invariant violations) return `Option`/`none` here.
-/

namespace Raft

/-- Log entry as in the repository: logical index and term.  The command
payload is opaque to all of the code modelled here and is omitted. -/
structure LogEntry where
  Index : Int
  Term : Int
deriving Repr, DecidableEq

/-- Fallback step for `nextIndex` on a failed AppendEntries round,
`const nextIndexFallbackStep = 20` in peermanager.go. -/
def nextIndexFallbackStep : Int := 20

/-- Per-follower replication state from peermanager.go (`Peer`): `nextIndex`
is the next entry index to send, `matchIndex` the highest index known
replicated (-1 when unknown).  The proxy and node info are irrelevant to the
verified logic and omitted. -/
structure Peer where
  nextIndex : Int
  matchIndex : Int
deriving Repr, DecidableEq

/-- Whether a matching entry has been found for the follower
(peermanager.go `HasMatch`). -/
def Peer.HasMatch (p : Peer) : Bool :=
  p.matchIndex + 1 == p.nextIndex

/-- Whether there is more to replicate for this follower
(peermanager.go `HasMoreToReplicate`). -/
def Peer.HasMoreToReplicate (p : Peer) (lastIndex : Int) : Bool :=
  p.matchIndex < lastIndex

/-- Update of the follower indices upon an AppendEntries reply
(peermanager.go `UpdateMatchIndex`).  On success the indices move to
`lastMatch` only when `matchIndex` differs from it; on failure `nextIndex`
falls back by `nextIndexFallbackStep`, capped at 0, and `matchIndex` is
invalidated. -/
def Peer.UpdateMatchIndex (p : Peer) (matched : Bool) (lastMatch : Int) : Peer :=
  if matched then
    if p.matchIndex ≠ lastMatch then
      { p with nextIndex := lastMatch + 1, matchIndex := lastMatch }
    else
      p
  else
    { p with nextIndex := max 0 (p.nextIndex - nextIndexFallbackStep), matchIndex := -1 }

/-- Bounded Go channel, described by its capacity and the number of
buffered, not yet received, items.  Only the sender side matters for the
properties below. -/
structure GoChannel where
  capacity : Nat
  buffered : Nat
deriving Repr, DecidableEq

/-- Plain (blocking) send `ch <- v` on a buffered Go channel: it completes
immediately exactly when the buffer has room; on a full buffer the caller
blocks until a receiver drains an item, modelled as `none`. -/
def GoChannel.send (ch : GoChannel) : Option GoChannel :=
  if ch.buffered < ch.capacity then some { ch with buffered := ch.buffered + 1 } else none

/-- Capacity of the per-peer replication signal channel,
`make(chan interface{}, 20)` in peermanager.go `NewPeerManager`. -/
def replicationSigCapacity : Nat := 20

/-- Replication trigger (peermanager.go `TriggerReplication`): a plain send
`p.ReplicationSig <- struct{}{}` on the peer's signal channel. -/
def Peer.TriggerReplication (ch : GoChannel) : Option GoChannel :=
  ch.send

/-- Peer manager state: the `nodeID -> Peer` mapping, kept as an association
list (iteration order is irrelevant to every modelled operation). -/
structure PeerManager where
  Peers : List (Int × Peer)
deriving Repr, DecidableEq

/-- Lookup of a peer by node id (peermanager.go `GetPeer`); the Go code
panics on an unknown id, modelled as `none`. -/
def PeerManager.GetPeer (mgr : PeerManager) (nodeID : Int) : Option Peer :=
  mgr.Peers.lookup nodeID

/-- Reset of every follower's indices (peermanager.go
`ResetFollowerIndicies`). -/
def PeerManager.ResetFollowerIndicies (mgr : PeerManager) (lastLogIndex : Int) : PeerManager :=
  ⟨mgr.Peers.map fun q => (q.1, { q.2 with nextIndex := lastLogIndex + 1, matchIndex := -1 })⟩

/-- Loop body of peermanager.go `QuorumReached`: scan the peers, counting
those whose `matchIndex` has reached `logIndex`, returning `true` as soon as
the running count exceeds `quorum`. -/
def quorumScan (ps : List (Int × Peer)) (logIndex : Int) (matchCnt quorum : Nat) : Bool :=
  match ps with
  | [] => false
  | q :: rest =>
    if q.2.matchIndex ≥ logIndex then
      if matchCnt + 1 > quorum then true
      else quorumScan rest logIndex (matchCnt + 1) quorum
    else quorumScan rest logIndex matchCnt quorum

/-- Quorum check (peermanager.go `QuorumReached`): the count starts at 1 for
the leader itself, which is not part of the peer map, and the majority
threshold is `(len(peers)+1)/2`. -/
def PeerManager.QuorumReached (mgr : PeerManager) (logIndex : Int) : Bool :=
  quorumScan mgr.Peers logIndex 1 ((mgr.Peers.length + 1) / 2)

/-- Update of a single peer's entry in the manager, standing in for the
in-place mutation through the pointer returned by `GetPeer`. -/
def PeerManager.setPeer (mgr : PeerManager) (nodeID : Int) (p : Peer) : PeerManager :=
  ⟨mgr.Peers.map fun q => if q.1 == nodeID then (q.1, p) else q⟩

/-- Log manager state.  The implementation file (the repository's log
manager) is not among the provided sources — only its tests and callers are —
so the fields are taken from those tests: `logs` holds the entries with
logical indices `snapshotIndex+1 .. lastIndex` (entry at logical index `i`
sits at position `i - snapshotIndex - 1`), and all of `lastIndex`,
`lastTerm`, `commitIndex`, `snapshotIndex`, `snapshotTerm` start at -1. -/
structure LogManager where
  logs : List LogEntry
  lastIndex : Int
  lastTerm : Int
  commitIndex : Int
  snapshotIndex : Int
  snapshotTerm : Int
  snapshotFile : String
deriving Repr, DecidableEq

/-- Term of the entry at logical index `i`. Modelled from the spec: the
snapshot boundary `(snapshotIndex, snapshotTerm)` acts as the virtual entry
preceding `snapshotIndex+1`, `(-1, -1)` stands for the empty-log sentinel, and
in-range indices read the stored entry. -/
def LogManager.entryTermAt (lm : LogManager) (i : Int) : Int :=
  if i ≤ lm.snapshotIndex then lm.snapshotTerm
  else
    match lm.logs.get? (i - lm.snapshotIndex - 1).toNat with
    | some e => e.Term
    | none => -1

/-- Retrieval of entries in `[start, finish)` together with the index and
term of the entry preceding `start`. Modelled from the spec: the range is
clamped to `lastIndex+1` on the right, retrieval at or below the snapshot
boundary is a fatal error (`none`), and the preceding entry may be the
snapshot boundary or the `(-1, -1)` sentinel. -/
def LogManager.GetLogEntries (lm : LogManager) (start finish : Int) :
    Option (List LogEntry × Int × Int) :=
  if start ≤ lm.snapshotIndex then none
  else
    let e := min finish (lm.lastIndex + 1)
    let a := (start - lm.snapshotIndex - 1).toNat
    let b := (e - lm.snapshotIndex - 1).toNat
    some ((lm.logs.take b).drop a, start - 1, lm.entryTermAt (start - 1))

/-- Commit advancement. Modelled from the spec: `Commit(index)` advances
`commitIndex` to `min(index, lastIndex)` and reports whether it increased
(application of the committed entries to the state machine is elided, as no
modelled property depends on it). -/
def LogManager.Commit (lm : LogManager) (targetIndex : Int) : LogManager × Bool :=
  let nc := min targetIndex lm.lastIndex
  if nc > lm.commitIndex then ({ lm with commitIndex := nc }, true) else (lm, false)

/-- Structural coherence of a log manager, as set up by the log manager's
constructor and maintained by its operations: the snapshot boundary is below
`lastIndex`, `logs` holds exactly the entries `snapshotIndex+1 .. lastIndex`,
and each stored entry carries its own logical index. -/
def LogManager.wellFormed (lm : LogManager) : Bool :=
  decide (lm.snapshotIndex ≤ lm.lastIndex) &&
  lm.logs.length == (lm.lastIndex - lm.snapshotIndex).toNat &&
  (List.range lm.logs.length).all fun k =>
    match lm.logs.get? k with
    | some e => e.Index == lm.snapshotIndex + 1 + k
    | none => false

/-- Node role, `NodeState` in node.go. -/
inductive NodeState where
  | Follower
  | Candidate
  | Leader
deriving Repr, DecidableEq

/-- Raft node state (`node` in the repository), restricted to the fields the
modelled operations read or write.  `votes` is the set of node ids whose
granted vote has been recorded for the current candidacy (the Go
`map[int]bool` only ever stores `true`), kept as a duplicate-free list. -/
structure RaftNode where
  nodeID : Int
  clusterSize : Int
  nodeState : NodeState
  currentTerm : Int
  currentLeader : Int
  votedFor : Int
  votes : List Int
  logMgr : LogManager
  peerMgr : PeerManager
deriving Repr, DecidableEq

/-- Term update (nodenonleader.go `setTerm`): a term lower than the current
one is a fatal error (`none`); a strictly higher one resets `votedFor`. -/
def setTerm (n : RaftNode) (newTerm : Int) : Option RaftNode :=
  if newTerm < n.currentTerm then none
  else some { n with
    votedFor := if newTerm > n.currentTerm then -1 else n.votedFor,
    currentTerm := newTerm }

/-- Transition to Follower (nodenonleader.go `enterFollowerState`): follow
the source node and adopt its term (logging elided). -/
def enterFollowerState (n : RaftNode) (sourceNodeID newTerm : Int) : Option RaftNode :=
  setTerm { n with nodeState := .Follower, currentLeader := sourceNodeID } newTerm

/-- Modelled from the spec: `tryFollowNewTerm` lives in the repository's
node file, which is not among the provided sources (only its callers in
nodenonleader.go and the leader logic are).  Per the spec's role table and
reply handling rule — a node that observes a term greater than its own
immediately transitions to Follower with the source as potential leader,
and otherwise keeps processing — it enters Follower state exactly when
`newTerm > currentTerm`, returning whether it followed.  The Go parameter
controlling a same-term timer refresh only affects the election timer,
which is outside this model. -/
def tryFollowNewTerm (n : RaftNode) (sourceNodeID newTerm : Int) : Option (Bool × RaftNode) :=
  if newTerm > n.currentTerm then (enterFollowerState n sourceNodeID newTerm).map fun m => (true, m)
  else some (false, n)

/-- Vote counting (nodenonleader.go `wonElection`): strict majority of
recorded granted votes against `clusterSize/2`. -/
def wonElection (n : RaftNode) : Bool :=
  (n.votes.length : Int) > n.clusterSize / 2

/-- Recording of a granted vote, `n.votes[reply.NodeID] = true` on the Go
`map[int]bool`. -/
def insertVote (votes : List Int) (id : Int) : List Int :=
  if votes.contains id then votes else id :: votes

/-- Transition to Leader (nodeleader.go `enterLeaderState`): become leader,
point `currentLeader` at self and reset every follower's indices from the
log's last index. -/
def enterLeaderState (n : RaftNode) : RaftNode :=
  { n with nodeState := .Leader, currentLeader := n.nodeID,
           peerMgr := n.peerMgr.ResetFollowerIndicies n.logMgr.lastIndex }

/-- AppendEntries request payload (node.go / nodeleader.go). -/
structure AppendEntriesRequest where
  Term : Int
  LeaderID : Int
  PrevLogIndex : Int
  PrevLogTerm : Int
  Entries : List LogEntry
  LeaderCommit : Int
deriving Repr, DecidableEq

/-- AppendEntries reply payload. -/
structure AppendEntriesReply where
  Term : Int
  NodeID : Int
  LeaderID : Int
  Success : Bool
  LastMatch : Int
deriving Repr, DecidableEq

/-- RequestVote reply payload. -/
structure RequestVoteReply where
  Term : Int
  NodeID : Int
  VotedTerm : Int
  VoteGranted : Bool
deriving Repr, DecidableEq

/-- InstallSnapshot request payload (nodeleader.go `createSnapshotRequest`). -/
structure SnapshotRequest where
  Term : Int
  LeaderID : Int
  SnapshotIndex : Int
  SnapshotTerm : Int
  File : String
deriving Repr, DecidableEq

/-- Outcome of one replication round preparation: either an InstallSnapshot
or an AppendEntries request (nodeleader.go `prepareReplicate` returns the
corresponding sender closure). -/
inductive ReplicationRequest where
  | snapshot (req : SnapshotRequest)
  | appendEntries (req : AppendEntriesRequest)
deriving Repr, DecidableEq

/-- Snapshot request construction (nodeleader.go `createSnapshotRequest`). -/
def createSnapshotRequest (n : RaftNode) : SnapshotRequest :=
  { Term := n.currentTerm, LeaderID := n.nodeID,
    SnapshotIndex := n.logMgr.snapshotIndex, SnapshotTerm := n.logMgr.snapshotTerm,
    File := n.logMgr.snapshotFile }

/-- AppendEntries request construction (nodeleader.go `createAERequest`):
the start of the range is clamped above the snapshot boundary, the end is
capped by the log's end and by `maxCnt` entries.  The `maxAppendEntriesCount`
constant itself is defined outside the provided sources, so the bound is a
parameter here. -/
def createAERequest (n : RaftNode) (nextIdx maxCnt : Int) : Option AppendEntriesRequest :=
  let startIdx := max nextIdx (n.logMgr.snapshotIndex + 1)
  let endIdx := min (n.logMgr.lastIndex + 1) (startIdx + maxCnt)
  (n.logMgr.GetLogEntries startIdx endIdx).map fun r =>
    { Term := n.currentTerm, LeaderID := n.nodeID,
      PrevLogIndex := r.2.1, PrevLogTerm := r.2.2,
      Entries := r.1, LeaderCommit := n.logMgr.commitIndex }

/-- Choice of the outgoing request for one replication round
(nodeleader.go `prepareReplicate`): snapshot when the follower's `nextIndex`
is at or below the snapshot boundary, otherwise entries from `nextIndex` —
up to `maxBatch` of them when a match is known, none (a probe) when not.
A node that is no longer leader yields no request (`errNoLongerLeader`),
and an unknown follower id is the `GetPeer` panic; both are `none`. -/
def prepareReplicate (n : RaftNode) (maxBatch : Int) (followerID : Int) :
    Option ReplicationRequest :=
  if n.nodeState ≠ NodeState.Leader then none
  else
    match n.peerMgr.GetPeer followerID with
    | none => none
    | some follower =>
      if follower.nextIndex ≤ n.logMgr.snapshotIndex then
        some (ReplicationRequest.snapshot (createSnapshotRequest n))
      else
        let maxEntryCount := if follower.HasMatch then maxBatch else 0
        (createAERequest n follower.nextIndex maxEntryCount).map ReplicationRequest.appendEntries

/-- Downward commit scan of nodeleader.go `leaderCommit`: starting at `i`
and stopping above `commitIndex`, stop at the first entry of a term below
`currentTerm` (§5.4.2), skip entries of a higher term, and return the first
index of the current term that has quorum.  `fuel` is the iteration count
`(i - commitIndex).toNat` of the Go loop `for i := lastIndex; i >
commitIndex; i--`. -/
def leaderCommitLoop (entryTerm : Int → Int) (quorum : Int → Bool)
    (currentTerm commitIndex : Int) : Nat → Int → Int
  | 0, _ => commitIndex
  | fuel + 1, i =>
    if entryTerm i < currentTerm then commitIndex
    else if entryTerm i > currentTerm then
      leaderCommitLoop entryTerm quorum currentTerm commitIndex fuel (i - 1)
    else if quorum i then i
    else leaderCommitLoop entryTerm quorum currentTerm commitIndex fuel (i - 1)

/-- Commit application (nodeleader.go `commitTo` over the log manager's
`Commit`): negative indices are ignored. -/
def commitTo (n : RaftNode) (commitIndex : Int) : RaftNode :=
  if commitIndex ≥ 0 then { n with logMgr := (n.logMgr.Commit commitIndex).1 } else n

/-- Leader commit attempt (nodeleader.go `leaderCommit`): run the downward
scan from the last index; when it found an index above the current
`commitIndex`, commit there and report `true`. -/
def RaftNode.leaderCommit (n : RaftNode) : RaftNode × Bool :=
  let c := n.logMgr.commitIndex
  let r := leaderCommitLoop n.logMgr.entryTermAt (fun i => n.peerMgr.QuorumReached i)
    n.currentTerm c (n.logMgr.lastIndex - c).toNat n.logMgr.lastIndex
  if r > c then (commitTo n r, true) else (n, false)

/-- Reply handling for replication rounds (nodeleader.go
`handleReplicationReply`): follow a higher term and stop; otherwise update
the follower's indices, attempt a leader commit on success, and decide
whether to signal this follower again.  The returned flag records whether
`TriggerReplication` was invoked for the follower. -/
def handleReplicationReply (n : RaftNode) (reply : AppendEntriesReply) :
    Option (RaftNode × Bool) :=
  (tryFollowNewTerm n reply.LeaderID reply.Term).bind fun fr =>
    if fr.1 then some (fr.2, false)
    else
      match fr.2.peerMgr.GetPeer reply.NodeID with
      | none => none
      | some follower =>
        let follower1 := follower.UpdateMatchIndex reply.Success reply.LastMatch
        let n2 := { fr.2 with peerMgr := fr.2.peerMgr.setPeer reply.NodeID follower1 }
        let cr := if reply.Success then n2.leaderCommit else (n2, false)
        some (cr.1, follower1.HasMoreToReplicate cr.1.logMgr.lastIndex || cr.2)

/-- Vote reply handling (nodenonleader.go `handleRequestVoteReply`): follow
a higher term and stop; ignore stale (`VotedTerm` mismatch), out-of-state or
denied replies; otherwise record the vote, and on reaching majority enter
leader state and send the initial heartbeat.  The returned flag records
whether the heartbeat — an immediate replication trigger to every
follower — was sent. -/
def handleRequestVoteReply (n : RaftNode) (reply : RequestVoteReply) :
    Option (RaftNode × Bool) :=
  (tryFollowNewTerm n reply.NodeID reply.Term).bind fun fr =>
    if fr.1 then some (fr.2, false)
    else if reply.VotedTerm ≠ fr.2.currentTerm ∨ fr.2.nodeState ≠ NodeState.Candidate ∨
        ¬reply.VoteGranted then
      some (fr.2, false)
    else
      let n2 := { fr.2 with votes := insertVote fr.2.votes reply.NodeID }
      if wonElection n2 then some (enterLeaderState n2, true) else some (n2, false)

/-- Peer states reachable from construction (`NewPeerManager` sets
`nextIndex = 0`, `matchIndex = -1`) through any interleaving of
`ResetFollowerIndicies` (whose argument, the leader's last log index, is
never below -1) and `UpdateMatchIndex`. -/
inductive PeerReachable : Peer → Prop
  | init : PeerReachable ⟨0, -1⟩
  | reset (p : Peer) (lastLogIndex : Int) (h : PeerReachable p) (hL : -1 ≤ lastLogIndex) :
      PeerReachable ⟨lastLogIndex + 1, -1⟩
  | update (p : Peer) (matched : Bool) (lastMatch : Int) (h : PeerReachable p) :
      PeerReachable (p.UpdateMatchIndex matched lastMatch)

example : Peer.HasMatch ⟨5, 4⟩ = true := by decide
example : Peer.HasMatch ⟨5, 3⟩ = false := by decide
example : Peer.UpdateMatchIndex ⟨7, 3⟩ true 5 = ⟨6, 5⟩ := by decide
example : Peer.UpdateMatchIndex ⟨7, 3⟩ false 5 = ⟨0, -1⟩ := by decide
example : Peer.UpdateMatchIndex ⟨45, 3⟩ false 5 = ⟨25, -1⟩ := by decide
example : Peer.UpdateMatchIndex ⟨6, -1⟩ true (-1) = ⟨6, -1⟩ := by decide
example :
    PeerManager.QuorumReached ⟨[(1, ⟨3, 2⟩), (2, ⟨0, -1⟩)]⟩ 1 = true := by decide
example :
    PeerManager.QuorumReached ⟨[(1, ⟨3, 2⟩), (2, ⟨0, -1⟩)]⟩ 3 = false := by decide

lemma quorumScan_iff (logIndex : Int) (q : Nat) :
    ∀ (ps : List (Int × Peer)) (c : Nat), c ≤ q →
      (quorumScan ps logIndex c q = true ↔
        c + (ps.filter fun x => decide (logIndex ≤ x.2.matchIndex)).length > q) := by
  intro ps
  induction ps with
  | nil =>
    intro c hc
    simp [quorumScan]
    omega
  | cons hd tl ih =>
    intro c hc
    by_cases hm : logIndex ≤ hd.2.matchIndex
    · rw [List.filter_cons_of_pos (by simpa using hm)]
      by_cases hcq : c + 1 > q
      · have hrun : quorumScan (hd :: tl) logIndex c q = true := by
          show (if hd.2.matchIndex ≥ logIndex then
                  if c + 1 > q then true else quorumScan tl logIndex (c + 1) q
                else quorumScan tl logIndex c q) = true
          rw [if_pos hm, if_pos hcq]
        rw [hrun]
        simp
        omega
      · have hstep : quorumScan (hd :: tl) logIndex c q = quorumScan tl logIndex (c + 1) q := by
          show (if hd.2.matchIndex ≥ logIndex then
                  if c + 1 > q then true else quorumScan tl logIndex (c + 1) q
                else quorumScan tl logIndex c q) = quorumScan tl logIndex (c + 1) q
          rw [if_pos hm, if_neg hcq]
        rw [hstep, ih (c + 1) (by omega)]
        simp
        omega
    · have hstep : quorumScan (hd :: tl) logIndex c q = quorumScan tl logIndex c q := by
        show (if hd.2.matchIndex ≥ logIndex then
                if c + 1 > q then true else quorumScan tl logIndex (c + 1) q
              else quorumScan tl logIndex c q) = quorumScan tl logIndex c q
        rw [if_neg hm]
      rw [List.filter_cons_of_neg (by simpa using hm), hstep, ih c hc]

/-- C3: `QuorumReached(index)` returns true iff the number of peers whose
`matchIndex ≥ index`, plus one for the leader itself, strictly exceeds
`clusterSize/2`, where `clusterSize` is the number of peers plus one.  The
peer set is nonempty, as enforced by `NewPeerManager`. -/
theorem quorumReached_iff_majority (mgr : PeerManager) (logIndex : Int)
    (hne : mgr.Peers ≠ []) :
    mgr.QuorumReached logIndex = true ↔
      (mgr.Peers.filter fun x => decide (logIndex ≤ x.2.matchIndex)).length + 1 >
        (mgr.Peers.length + 1) / 2 := by
  have h1 : 1 ≤ (mgr.Peers.length + 1) / 2 := by
    cases hps : mgr.Peers with
    | nil => exact absurd hps hne
    | cons a l => simp [hps]; omega
  have h2 := quorumScan_iff logIndex ((mgr.Peers.length + 1) / 2) mgr.Peers 1 h1
  unfold PeerManager.QuorumReached
  rw [h2]
  omega

/-- Witness for C3 at a two-peer manager: with `matchIndex` values 2 and -1,
index 1 has quorum (2 of 3 nodes). -/
theorem quorumReached_iff_majority_witness :
    PeerManager.QuorumReached ⟨[(1, ⟨3, 2⟩), (2, ⟨0, -1⟩)]⟩ 1 = true :=
  (quorumReached_iff_majority ⟨[(1, ⟨3, 2⟩), (2, ⟨0, -1⟩)]⟩ 1 (by decide)).mpr (by decide)

/-- C4: `ResetFollowerIndicies(lastLogIndex)` sets every peer to
`nextIndex = lastLogIndex + 1` and `matchIndex = -1`, and becoming Leader
(`enterLeaderState`) performs exactly this reset from the log's last
index. -/
theorem resetFollowerIndicies_spec (mgr : PeerManager) (lastLogIndex : Int) (n : RaftNode) :
    (∀ q ∈ (mgr.ResetFollowerIndicies lastLogIndex).Peers,
        q.2.nextIndex = lastLogIndex + 1 ∧ q.2.matchIndex = -1) ∧
    (enterLeaderState n).peerMgr = n.peerMgr.ResetFollowerIndicies n.logMgr.lastIndex ∧
    (enterLeaderState n).nodeState = NodeState.Leader := by
  refine ⟨?_, rfl, rfl⟩
  intro q hq
  simp only [PeerManager.ResetFollowerIndicies, List.mem_map] at hq
  obtain ⟨x, _, rfl⟩ := hq
  exact ⟨rfl, rfl⟩

/-- Witness for C4: resetting a one-peer manager at `lastLogIndex = 5`
yields `nextIndex = 6`, `matchIndex = -1` for that peer. -/
theorem resetFollowerIndicies_spec_witness :
    (6 : Int) = 5 + 1 ∧ (-1 : Int) = -1 :=
  (resetFollowerIndicies_spec ⟨[(1, ⟨0, -1⟩)]⟩ 5
      ⟨0, 2, NodeState.Candidate, 1, -1, 0, [0], ⟨[], -1, -1, -1, -1, -1, ""⟩,
        ⟨[(1, ⟨0, -1⟩)]⟩⟩).1
    (1, ⟨6, -1⟩) (by decide)

/-- C6: `setTerm(newTerm)` is fatal for a lower term, keeps `votedFor` on an
equal term, resets `votedFor` to -1 on a higher term, and never decreases
`currentTerm`. -/
theorem setTerm_spec (n : RaftNode) (newTerm : Int) :
    (newTerm < n.currentTerm → setTerm n newTerm = none) ∧
    (newTerm = n.currentTerm → setTerm n newTerm = some n) ∧
    (n.currentTerm < newTerm →
      setTerm n newTerm = some { n with votedFor := -1, currentTerm := newTerm }) ∧
    (∀ m, setTerm n newTerm = some m →
      n.currentTerm ≤ m.currentTerm ∧ m.currentTerm = newTerm) := by
  refine ⟨?_, ?_, ?_, ?_⟩
  · intro h
    simp [setTerm, h]
  · intro h
    simp [setTerm, h]
  · intro h
    simp [setTerm, h, not_lt.mpr (le_of_lt h)]
  · intro m hm
    unfold setTerm at hm
    split at hm
    · simp at hm
    · rename_i hge
      have hmeq : m.currentTerm = newTerm := by
        obtain rfl : _ = m := Option.some.inj hm
        rfl
      exact ⟨by omega, hmeq⟩

/-- Witness for C6 at a node with `currentTerm = 5`: term 3 is fatal, term 5
keeps the state, term 7 resets `votedFor`. -/
theorem setTerm_spec_witness :
    setTerm ⟨0, 2, NodeState.Follower, 5, -1, 4, [], ⟨[], -1, -1, -1, -1, -1, ""⟩, ⟨[]⟩⟩ 3
        = none ∧
    setTerm ⟨0, 2, NodeState.Follower, 5, -1, 4, [], ⟨[], -1, -1, -1, -1, -1, ""⟩, ⟨[]⟩⟩ 5
        = some ⟨0, 2, NodeState.Follower, 5, -1, 4, [], ⟨[], -1, -1, -1, -1, -1, ""⟩, ⟨[]⟩⟩ ∧
    setTerm ⟨0, 2, NodeState.Follower, 5, -1, 4, [], ⟨[], -1, -1, -1, -1, -1, ""⟩, ⟨[]⟩⟩ 7
        = some ⟨0, 2, NodeState.Follower, 7, -1, -1, [], ⟨[], -1, -1, -1, -1, -1, ""⟩, ⟨[]⟩⟩ :=
  ⟨(setTerm_spec _ 3).1 (by decide),
   (setTerm_spec _ 5).2.1 rfl,
   (setTerm_spec _ 7).2.2.1 (by decide)⟩

/-- C9: in every reachable peer state, `matchIndex + 1 ≤ nextIndex`, and
`HasMatch` holds exactly when `matchIndex + 1 = nextIndex`. -/
theorem peer_reachable_invariant (p : Peer) (h : PeerReachable p) :
    p.matchIndex + 1 ≤ p.nextIndex ∧
    (p.HasMatch = true ↔ p.matchIndex + 1 = p.nextIndex) := by
  constructor
  · induction h with
    | init => decide
    | reset p0 lastLogIndex h0 hL ih => simp; omega
    | update p0 matched lastMatch h0 ih =>
      unfold Peer.UpdateMatchIndex
      split_ifs with h1 h2
      · simp
      · exact ih
      · simp
  · simp [Peer.HasMatch]

/-- Witness for C9 at the freshly constructed peer `(nextIndex 0,
matchIndex -1)`. -/
theorem peer_reachable_invariant_witness :
    (Peer.mk 0 (-1)).matchIndex + 1 ≤ (Peer.mk 0 (-1)).nextIndex :=
  (peer_reachable_invariant ⟨0, -1⟩ PeerReachable.init).1

/-- Counterexample for C2: the reachable peer state `(nextIndex 6,
matchIndex -1)` — produced by `ResetFollowerIndicies(5)` — violates the
claim's success clause on `UpdateMatchIndex(true, -1)`: the guard
`matchIndex != lastMatch` fails, so `nextIndex` stays 6 instead of becoming
`lastMatch + 1 = 0`. -/
theorem updateMatchIndex_claim_counterexample :
    PeerReachable ⟨6, -1⟩ ∧
    ¬ ((Peer.UpdateMatchIndex ⟨6, -1⟩ true (-1)).nextIndex = -1 + 1 ∧
       (Peer.UpdateMatchIndex ⟨6, -1⟩ true (-1)).matchIndex = -1) := by
  constructor
  · have h := PeerReachable.reset ⟨0, -1⟩ 5 PeerReachable.init (by decide)
    norm_num at h
    exact h
  · decide

/-- C2 as amended: on success with `matchIndex ≠ lastMatch` the indices move
to `lastMatch + 1` / `lastMatch`; on success with `matchIndex = lastMatch`
the peer is unchanged; on failure `nextIndex` becomes
`max(0, nextIndex - 20)` and `matchIndex` becomes -1. -/
theorem updateMatchIndex_spec (p : Peer) (matched : Bool) (lastMatch : Int) :
    (matched = true → p.matchIndex ≠ lastMatch →
      p.UpdateMatchIndex matched lastMatch = ⟨lastMatch + 1, lastMatch⟩) ∧
    (matched = true → p.matchIndex = lastMatch →
      p.UpdateMatchIndex matched lastMatch = p) ∧
    (matched = false →
      p.UpdateMatchIndex matched lastMatch = ⟨max 0 (p.nextIndex - 20), -1⟩) := by
  refine ⟨?_, ?_, ?_⟩ <;> intro h
  · intro hne
    simp [Peer.UpdateMatchIndex, h, hne]
  · intro he
    simp [Peer.UpdateMatchIndex, h, he]
  · simp [Peer.UpdateMatchIndex, h, nextIndexFallbackStep]

/-- Witness for C2 (amended) covering all three branches at concrete
peers. -/
theorem updateMatchIndex_spec_witness :
    Peer.UpdateMatchIndex ⟨7, 3⟩ true 5 = ⟨6, 5⟩ ∧
    Peer.UpdateMatchIndex ⟨6, -1⟩ true (-1) = ⟨6, -1⟩ ∧
    Peer.UpdateMatchIndex ⟨45, 3⟩ false 5 = ⟨25, -1⟩ :=
  ⟨(updateMatchIndex_spec ⟨7, 3⟩ true 5).1 rfl (by decide),
   (updateMatchIndex_spec ⟨6, -1⟩ true (-1)).2.1 rfl rfl,
   by rw [(updateMatchIndex_spec ⟨45, 3⟩ false 5).2.2 rfl]; decide⟩

/-- Counterexample for C10: the replication signal channel has fixed
capacity 20 (so not at least the cluster size of, say, a 25-node cluster),
and a trigger arriving while it is full is not dropped — the plain channel
send does not complete, i.e. the caller blocks. -/
theorem triggerReplication_claim_counterexample :
    Peer.TriggerReplication ⟨replicationSigCapacity, 20⟩ = none ∧
    ¬ (Peer.TriggerReplication ⟨replicationSigCapacity, 20⟩ =
        some ⟨replicationSigCapacity, 20⟩) ∧
    replicationSigCapacity < 25 := by decide

/-- C10 as amended: `TriggerReplication` sends on the peer's signal channel,
a bounded buffer of fixed capacity 20; the send completes without waiting
while fewer than 20 triggers are pending, and blocks the caller (rather
than dropping the trigger) when the buffer is full. -/
theorem triggerReplication_spec (ch : GoChannel)
    (hcap : ch.capacity = replicationSigCapacity) :
    (ch.buffered < 20 →
      Peer.TriggerReplication ch = some ⟨replicationSigCapacity, ch.buffered + 1⟩) ∧
    (20 ≤ ch.buffered → Peer.TriggerReplication ch = none) := by
  constructor
  · intro h
    unfold Peer.TriggerReplication GoChannel.send
    rw [hcap]
    rw [if_pos (by simpa [replicationSigCapacity] using h)]
  · intro h
    unfold Peer.TriggerReplication GoChannel.send
    rw [hcap]
    rw [if_neg (by simp [replicationSigCapacity]; omega)]

lemma leaderCommitLoop_spec (entryTerm : Int → Int) (quorum : Int → Bool)
    (currentTerm c L : Int)
    (hmono : ∀ a b : Int, c < a → a ≤ b → b ≤ L → entryTerm a ≤ entryTerm b) :
    ∀ (fuel : Nat) (i : Int), fuel = (i - c).toNat → i ≤ L →
      ((leaderCommitLoop entryTerm quorum currentTerm c fuel i = c ∨
        (c < leaderCommitLoop entryTerm quorum currentTerm c fuel i ∧
         leaderCommitLoop entryTerm quorum currentTerm c fuel i ≤ i ∧
         entryTerm (leaderCommitLoop entryTerm quorum currentTerm c fuel i) = currentTerm ∧
         quorum (leaderCommitLoop entryTerm quorum currentTerm c fuel i) = true)) ∧
       (∀ j : Int, c < j → j ≤ i → entryTerm j = currentTerm → quorum j = true →
         j ≤ leaderCommitLoop entryTerm quorum currentTerm c fuel i)) := by
  intro fuel
  induction fuel with
  | zero =>
    intro i hfuel hiL
    refine ⟨Or.inl rfl, ?_⟩
    intro j hj hji _ _
    omega
  | succ k ih =>
    intro i hfuel hiL
    have hic : c < i := by omega
    by_cases hlt : entryTerm i < currentTerm
    · have hres : leaderCommitLoop entryTerm quorum currentTerm c (k + 1) i = c := by
        simp only [leaderCommitLoop]
        rw [if_pos hlt]
      rw [hres]
      refine ⟨Or.inl rfl, ?_⟩
      intro j hj hji hterm hq
      have := hmono j i hj hji hiL
      omega
    · by_cases hgt : entryTerm i > currentTerm
      · have hres : leaderCommitLoop entryTerm quorum currentTerm c (k + 1) i =
            leaderCommitLoop entryTerm quorum currentTerm c k (i - 1) := by
          simp only [leaderCommitLoop]
          rw [if_neg hlt, if_pos hgt]
        have ihh := ih (i - 1) (by omega) (by omega)
        rw [hres]
        refine ⟨?_, ?_⟩
        · rcases ihh.1 with h | h
          · exact Or.inl h
          · exact Or.inr ⟨h.1, by omega, h.2.2⟩
        · intro j hj hji hterm hq
          rcases eq_or_lt_of_le hji with rfl | hji'
          · omega
          · exact ihh.2 j hj (by omega) hterm hq
      · have heq : entryTerm i = currentTerm := by omega
        by_cases hq : quorum i = true
        · have hres : leaderCommitLoop entryTerm quorum currentTerm c (k + 1) i = i := by
            simp only [leaderCommitLoop]
            rw [if_neg hlt, if_neg hgt, if_pos hq]
          rw [hres]
          exact ⟨Or.inr ⟨hic, le_refl i, heq, hq⟩, fun j hj hji _ _ => hji⟩
        · have hres : leaderCommitLoop entryTerm quorum currentTerm c (k + 1) i =
              leaderCommitLoop entryTerm quorum currentTerm c k (i - 1) := by
            simp only [leaderCommitLoop]
            rw [if_neg hlt, if_neg hgt, if_neg hq]
          have ihh := ih (i - 1) (by omega) (by omega)
          rw [hres]
          refine ⟨?_, ?_⟩
          · rcases ihh.1 with h | h
            · exact Or.inl h
            · exact Or.inr ⟨h.1, by omega, h.2.2⟩
          · intro j hj hji hterm hqj
            rcases eq_or_lt_of_le hji with rfl | hji'
            · exact absurd hqj hq
            · exact ihh.2 j hj (by omega) hterm hqj

/-- C1: the leader commit attempt advances `commitIndex` to the largest
index `i` in `(commitIndex, lastIndex]` whose entry has term `currentTerm`
and has quorum — and to such an index only, so never past a prior-term
entry on quorum alone — and leaves the node unchanged when no such index
exists.  The hypotheses are the leader-log invariants: entry terms are
monotone along the log (so a term below `currentTerm` soundly terminates
the downward scan) and `commitIndex ≥ -1`. -/
theorem leaderCommit_spec (n : RaftNode)
    (hmono : ∀ a b : Int, n.logMgr.commitIndex < a → a ≤ b → b ≤ n.logMgr.lastIndex →
      n.logMgr.entryTermAt a ≤ n.logMgr.entryTermAt b)
    (hc : -1 ≤ n.logMgr.commitIndex) :
    (∀ j : Int, n.logMgr.commitIndex < j → j ≤ n.logMgr.lastIndex →
      n.logMgr.entryTermAt j = n.currentTerm → n.peerMgr.QuorumReached j = true →
      j ≤ n.leaderCommit.1.logMgr.commitIndex) ∧
    (n.leaderCommit.2 = true →
      n.logMgr.commitIndex < n.leaderCommit.1.logMgr.commitIndex ∧
      n.leaderCommit.1.logMgr.commitIndex ≤ n.logMgr.lastIndex ∧
      n.logMgr.entryTermAt n.leaderCommit.1.logMgr.commitIndex = n.currentTerm ∧
      n.peerMgr.QuorumReached n.leaderCommit.1.logMgr.commitIndex = true) ∧
    (n.leaderCommit.2 = false → n.leaderCommit.1 = n) := by
  have hloop := leaderCommitLoop_spec n.logMgr.entryTermAt
    (fun i => n.peerMgr.QuorumReached i) n.currentTerm n.logMgr.commitIndex
    n.logMgr.lastIndex hmono ((n.logMgr.lastIndex - n.logMgr.commitIndex).toNat)
    n.logMgr.lastIndex rfl (le_refl _)
  set r := leaderCommitLoop n.logMgr.entryTermAt (fun i => n.peerMgr.QuorumReached i)
    n.currentTerm n.logMgr.commitIndex
    (n.logMgr.lastIndex - n.logMgr.commitIndex).toNat n.logMgr.lastIndex with hr
  by_cases hadv : r > n.logMgr.commitIndex
  · have hrS : n.logMgr.commitIndex < r ∧ r ≤ n.logMgr.lastIndex ∧
        n.logMgr.entryTermAt r = n.currentTerm ∧ n.peerMgr.QuorumReached r = true := by
      rcases hloop.1 with h | h
      · omega
      · exact h
    have hres : n.leaderCommit = (commitTo n r, true) := by
      show (if r > n.logMgr.commitIndex then (commitTo n r, true) else (n, false)) = _
      rw [if_pos hadv]
    have hcommit : (commitTo n r).logMgr.commitIndex = r := by
      unfold commitTo
      rw [if_pos (by omega : r ≥ 0)]
      unfold LogManager.Commit
      have hminr : min r n.logMgr.lastIndex = r := min_eq_left hrS.2.1
      simp only [hminr]
      rw [if_pos hadv]
    rw [hres]
    refine ⟨?_, ?_, ?_⟩
    · intro j hj hjL hterm hq
      simpa [hcommit] using hloop.2 j hj hjL hterm hq
    · intro _
      simpa [hcommit] using hrS
    · intro hfalse
      simp at hfalse
  · have hres : n.leaderCommit = (n, false) := by
      show (if r > n.logMgr.commitIndex then (commitTo n r, true) else (n, false)) = _
      rw [if_neg hadv]
    rw [hres]
    refine ⟨?_, by simp, fun _ => rfl⟩
    intro j hj hjL hterm hq
    have := hloop.2 j hj hjL hterm hq
    simp only
    omega

lemma tryFollowNewTerm_gt (n : RaftNode) (src t : Int) (h : n.currentTerm < t) :
    tryFollowNewTerm n src t = some (true,
      { n with nodeState := NodeState.Follower, currentLeader := src,
               votedFor := -1, currentTerm := t }) := by
  unfold tryFollowNewTerm enterFollowerState setTerm
  rw [if_pos h]
  simp only [Option.map]
  rw [if_neg (by simp; omega), if_pos (by simpa using h)]

lemma tryFollowNewTerm_le (n : RaftNode) (src t : Int) (h : t ≤ n.currentTerm) :
    tryFollowNewTerm n src t = some (false, n) := by
  unfold tryFollowNewTerm
  rw [if_neg (not_lt.mpr h)]

/-- Node state after recording an AppendEntries reply's match information
for the replying follower `p` — the Go code's in-place
`follower.UpdateMatchIndex(reply.Success, reply.LastMatch)` through the
pointer obtained from `GetPeer`. -/
def recordReply (n : RaftNode) (reply : AppendEntriesReply) (p : Peer) : RaftNode :=
  { n with peerMgr :=
      n.peerMgr.setPeer reply.NodeID (p.UpdateMatchIndex reply.Success reply.LastMatch) }

/-- C8: handling an AppendEntries reply while leader.  A reply term above
`currentTerm` forces the Follower transition with follower indices and
commit index untouched and no further processing; otherwise the follower's
indices are updated via `UpdateMatchIndex(success, lastMatch)`, the leader
commit is attempted exactly on success, and the same follower is signalled
again exactly when the commit advanced or `HasMoreToReplicate(lastIndex)`
holds. -/
theorem handleReplicationReply_spec (n : RaftNode) (reply : AppendEntriesReply) :
    (n.currentTerm < reply.Term →
      ∃ n1, handleReplicationReply n reply = some (n1, false) ∧
        n1.nodeState = NodeState.Follower ∧ n1.currentTerm = reply.Term ∧
        n1.peerMgr = n.peerMgr ∧ n1.logMgr = n.logMgr) ∧
    (reply.Term ≤ n.currentTerm →
      ∀ p, n.peerMgr.GetPeer reply.NodeID = some p →
        (reply.Success = true →
          handleReplicationReply n reply = some
            ((recordReply n reply p).leaderCommit.1,
             (p.UpdateMatchIndex true reply.LastMatch).HasMoreToReplicate
                (recordReply n reply p).leaderCommit.1.logMgr.lastIndex ||
             (recordReply n reply p).leaderCommit.2)) ∧
        (reply.Success = false →
          handleReplicationReply n reply = some
            (recordReply n reply p,
             (p.UpdateMatchIndex false reply.LastMatch).HasMoreToReplicate
                n.logMgr.lastIndex))) := by
  constructor
  · intro hterm
    have hrw : handleReplicationReply n reply = some ({ n with nodeState := NodeState.Follower, currentLeader := reply.LeaderID, votedFor := -1, currentTerm := reply.Term }, false) := by
      unfold handleReplicationReply
      rw [tryFollowNewTerm_gt n reply.LeaderID reply.Term hterm]
      rfl
    exact ⟨_, hrw, rfl, rfl, rfl, rfl⟩
  · intro hterm
    obtain ⟨rTerm, rNode, rLeader, rSuccess, rLast⟩ := reply
    intro p hp
    constructor
    · intro hs
      subst hs
      unfold handleReplicationReply recordReply
      rw [tryFollowNewTerm_le n rLeader rTerm hterm]
      simp only [Option.bind, Bool.false_eq_true, if_false]
      rw [hp]
      rfl
    · intro hs
      subst hs
      unfold handleReplicationReply recordReply
      rw [tryFollowNewTerm_le n rLeader rTerm hterm]
      simp only [Option.bind, Bool.false_eq_true, if_false]
      rw [hp]
      simp only [Bool.or_false]

/-- Follower fixture for the C8 witness: a term-2 leader whose follower 1
replies success up to index 2. -/
def replWitnessNode : RaftNode :=
  ⟨0, 3, NodeState.Leader, 2, 0, 0, [0],
    ⟨[⟨0, 2⟩, ⟨1, 2⟩, ⟨2, 2⟩], 2, 2, -1, -1, -1, ""⟩,
    ⟨[(1, ⟨0, -1⟩), (2, ⟨0, -1⟩)]⟩⟩

/-- Witness for C8: a successful reply `lastMatch = 2` from follower 1
updates that follower to `(nextIndex 3, matchIndex 2)`, advances the commit
to index 2 (quorum of 2 of 3 at term 2), and therefore signals the follower
for another round (commit advanced). -/
theorem handleReplicationReply_spec_witness :
    handleReplicationReply replWitnessNode ⟨2, 1, 0, true, 2⟩ =
      some (⟨0, 3, NodeState.Leader, 2, 0, 0, [0],
              ⟨[⟨0, 2⟩, ⟨1, 2⟩, ⟨2, 2⟩], 2, 2, 2, -1, -1, ""⟩,
              ⟨[(1, ⟨3, 2⟩), (2, ⟨0, -1⟩)]⟩⟩, true) := by
  rw [((handleReplicationReply_spec replWitnessNode ⟨2, 1, 0, true, 2⟩).2
    (by decide) ⟨0, -1⟩ (by decide)).1 rfl]
  decide

/-- C5: vote-reply handling for a candidate.  With the reply's term not
above `currentTerm`: stale (`votedTerm` mismatch), non-candidate or denied
replies leave the node unchanged; otherwise the vote is recorded and the
node becomes Leader exactly when the recorded granted votes (including its
own) exceed `clusterSize/2` — winning sets `currentLeader` to itself,
resets all follower indices from the log's last index, and sends the
immediate replication trigger (heartbeat) to all followers. -/
theorem handleRequestVoteReply_spec (n : RaftNode) (reply : RequestVoteReply)
    (hterm : reply.Term ≤ n.currentTerm) :
    ∃ r, handleRequestVoteReply n reply = some r ∧
      ((reply.VotedTerm ≠ n.currentTerm ∨ n.nodeState ≠ NodeState.Candidate ∨
          reply.VoteGranted = false) → r = (n, false)) ∧
      (reply.VotedTerm = n.currentTerm → n.nodeState = NodeState.Candidate →
        reply.VoteGranted = true →
        ((((insertVote n.votes reply.NodeID).length : Int) > n.clusterSize / 2 →
            r.1 = enterLeaderState { n with votes := insertVote n.votes reply.NodeID } ∧
            r.2 = true ∧ r.1.nodeState = NodeState.Leader ∧
            r.1.currentLeader = n.nodeID ∧
            r.1.peerMgr = n.peerMgr.ResetFollowerIndicies n.logMgr.lastIndex) ∧
         (¬(((insertVote n.votes reply.NodeID).length : Int) > n.clusterSize / 2) →
            r = ({ n with votes := insertVote n.votes reply.NodeID }, false) ∧
            r.1.nodeState = NodeState.Candidate))) := by
  have hf := tryFollowNewTerm_le n reply.NodeID reply.Term hterm
  by_cases hig : reply.VotedTerm ≠ n.currentTerm ∨ n.nodeState ≠ NodeState.Candidate ∨
      ¬reply.VoteGranted
  · refine ⟨(n, false), ?_, fun _ => rfl, ?_⟩
    · unfold handleRequestVoteReply
      rw [hf]
      simp only [Option.bind, Bool.false_eq_true, if_false]
      rw [if_pos hig]
    · intro h1 h2 h3
      rcases hig with h | h | h
      · exact absurd h1 h
      · exact absurd h2 h
      · exact absurd (by simp [h3]) h
  · by_cases hwin :
        (((insertVote n.votes reply.NodeID).length : Int) > n.clusterSize / 2)
    · refine ⟨(enterLeaderState { n with votes := insertVote n.votes reply.NodeID }, true),
        ?_, ?_, ?_⟩
      · unfold handleRequestVoteReply
        rw [hf]
        simp only [Option.bind, Bool.false_eq_true, if_false]
        rw [if_neg hig, if_pos (by simpa [wonElection] using hwin)]
      · intro h
        apply absurd ?_ hig
        rcases h with h | h | h
        · exact Or.inl h
        · exact Or.inr (Or.inl h)
        · exact Or.inr (Or.inr (by simp [h]))
      · intro _ _ _
        exact ⟨fun _ => ⟨rfl, rfl, rfl, rfl, rfl⟩, fun hn => absurd hwin hn⟩
    · refine ⟨({ n with votes := insertVote n.votes reply.NodeID }, false), ?_, ?_, ?_⟩
      · unfold handleRequestVoteReply
        rw [hf]
        simp only [Option.bind, Bool.false_eq_true, if_false]
        rw [if_neg hig, if_neg (by simpa [wonElection] using hwin)]
      · intro h
        apply absurd ?_ hig
        rcases h with h | h | h
        · exact Or.inl h
        · exact Or.inr (Or.inl h)
        · exact Or.inr (Or.inr (by simp [h]))
      · intro _ hst _
        exact ⟨fun hw => absurd hw hwin, fun _ => ⟨rfl, hst⟩⟩

lemma wellFormed_facts (lm : LogManager) (h : lm.wellFormed = true) :
    lm.snapshotIndex ≤ lm.lastIndex ∧
    lm.logs.length = (lm.lastIndex - lm.snapshotIndex).toNat ∧
    ∀ k, (hk : k < lm.logs.length) →
      (lm.logs.get ⟨k, hk⟩).Index = lm.snapshotIndex + 1 + k := by
  unfold LogManager.wellFormed at h
  rw [Bool.and_eq_true, Bool.and_eq_true] at h
  obtain ⟨⟨h1, h2⟩, h3⟩ := h
  refine ⟨by simpa using h1, by simpa using h2, ?_⟩
  intro k hk
  rw [List.all_eq_true] at h3
  have hk3 := h3 k (List.mem_range.mpr hk)
  rw [List.get?_eq_get hk] at hk3
  simpa using hk3

lemma mem_take_drop {α : Type} (l : List α) (a b : Nat) (x : α)
    (hx : x ∈ (l.take b).drop a) :
    ∃ (k : Nat) (hk : k < l.length), a ≤ k ∧ k < b ∧ l.get ⟨k, hk⟩ = x := by
  rw [List.mem_iff_getElem] at hx
  obtain ⟨j, hj, hx⟩ := hx
  have hj2 := hj
  rw [List.length_drop, List.length_take] at hj2
  have hb : a + j < b ∧ a + j < l.length := by omega
  refine ⟨a + j, hb.2, by omega, hb.1, ?_⟩
  rw [← hx, List.getElem_drop, List.getElem_take]
  rfl

lemma getLogEntries_spec (lm : LogManager) (start finish : Int)
    (hwf : lm.wellFormed = true) (hstart : lm.snapshotIndex < start) :
    ∃ entries, lm.GetLogEntries start finish =
        some (entries, start - 1, lm.entryTermAt (start - 1)) ∧
      (entries.length : Int) = max 0 (min finish (lm.lastIndex + 1) - start) ∧
      ∀ ent ∈ entries, start ≤ ent.Index ∧ ent.Index < min finish (lm.lastIndex + 1) := by
  obtain ⟨hsl, hlen, hidx⟩ := wellFormed_facts lm hwf
  unfold LogManager.GetLogEntries
  rw [if_neg (not_le.mpr hstart)]
  refine ⟨(lm.logs.take ((min finish (lm.lastIndex + 1) - lm.snapshotIndex - 1).toNat)).drop
      ((start - lm.snapshotIndex - 1).toNat), rfl, ?_, ?_⟩
  · rw [List.length_drop, List.length_take]
    omega
  · intro ent hent
    obtain ⟨k, hk, hak, hkb, hget⟩ := mem_take_drop _ _ _ ent hent
    have hke := hidx k hk
    rw [hget] at hke
    omega

lemma createAERequest_spec (n : RaftNode) (nextIdx maxCnt : Int)
    (hwf : n.logMgr.wellFormed = true) (hnext : n.logMgr.snapshotIndex < nextIdx) :
    ∃ req, createAERequest n nextIdx maxCnt = some req ∧
      (req.Entries.length : Int) =
        max 0 (min (n.logMgr.lastIndex + 1) (nextIdx + maxCnt) - nextIdx) ∧
      ∀ ent ∈ req.Entries, nextIdx ≤ ent.Index ∧ ent.Index ≤ n.logMgr.lastIndex := by
  have hmax : max nextIdx (n.logMgr.snapshotIndex + 1) = nextIdx := max_eq_left (by omega)
  obtain ⟨entries, hget, hlen, hmem⟩ := getLogEntries_spec n.logMgr nextIdx
    (min (n.logMgr.lastIndex + 1) (nextIdx + maxCnt)) hwf hnext
  refine ⟨⟨n.currentTerm, n.nodeID, nextIdx - 1, n.logMgr.entryTermAt (nextIdx - 1),
      entries, n.logMgr.commitIndex⟩, ?_, ?_, ?_⟩
  · unfold createAERequest
    rw [hmax]
    show Option.map _
      (n.logMgr.GetLogEntries nextIdx (min (n.logMgr.lastIndex + 1) (nextIdx + maxCnt))) = _
    rw [hget]
    rfl
  · rw [hlen]
    omega
  · intro ent hent
    have := hmem ent hent
    omega

lemma prepareReplicate_eq (n : RaftNode) (maxBatch followerID : Int) (p : Peer)
    (hleader : n.nodeState = NodeState.Leader)
    (hp : n.peerMgr.GetPeer followerID = some p) :
    prepareReplicate n maxBatch followerID =
      if p.nextIndex ≤ n.logMgr.snapshotIndex then
        some (ReplicationRequest.snapshot (createSnapshotRequest n))
      else
        (createAERequest n p.nextIndex (if p.HasMatch then maxBatch else 0)).map
          ReplicationRequest.appendEntries := by
  unfold prepareReplicate
  rw [if_neg (by simp [hleader]), hp]

/-- C7: request selection for one replication round on the leader.  With
`nextIndex` at or below the snapshot boundary the round sends an
InstallSnapshot request carrying the current snapshot's index, term and
file; otherwise an AppendEntries request whose payload is up to `MAX_BATCH`
(`maxAppendEntriesCount`, a constant defined outside the provided sources
and hence a parameter) entries starting at `nextIndex` when a match is
known, and empty (a probe) when not; the retrieval range is clamped so it
never starts at or below `snapshotIndex` (`createAERequest` never hits the
fatal retrieval error, for any arguments). -/
theorem prepareReplicate_spec (n : RaftNode) (maxBatch followerID : Int) (p : Peer)
    (hleader : n.nodeState = NodeState.Leader)
    (hp : n.peerMgr.GetPeer followerID = some p)
    (hmb : 0 ≤ maxBatch)
    (hwf : n.logMgr.wellFormed = true) :
    (p.nextIndex ≤ n.logMgr.snapshotIndex →
      prepareReplicate n maxBatch followerID =
        some (ReplicationRequest.snapshot ⟨n.currentTerm, n.nodeID, n.logMgr.snapshotIndex,
          n.logMgr.snapshotTerm, n.logMgr.snapshotFile⟩)) ∧
    (n.logMgr.snapshotIndex < p.nextIndex →
      ∃ req, prepareReplicate n maxBatch followerID =
          some (ReplicationRequest.appendEntries req) ∧
        (p.HasMatch = true →
          (req.Entries.length : Int) =
            max 0 (min (n.logMgr.lastIndex + 1) (p.nextIndex + maxBatch) - p.nextIndex) ∧
          (req.Entries.length : Int) ≤ maxBatch ∧
          ∀ ent ∈ req.Entries, p.nextIndex ≤ ent.Index ∧ ent.Index ≤ n.logMgr.lastIndex) ∧
        (p.HasMatch = false → req.Entries = [])) ∧
    (∀ nextIdx maxCnt : Int, createAERequest n nextIdx maxCnt ≠ none) := by
  refine ⟨?_, ?_, ?_⟩
  · intro hsnap
    rw [prepareReplicate_eq n maxBatch followerID p hleader hp, if_pos hsnap]
    rfl
  · intro hsnap
    rw [prepareReplicate_eq n maxBatch followerID p hleader hp, if_neg (not_le.mpr hsnap)]
    by_cases hm : p.HasMatch
    · obtain ⟨req, hreq, hlen, hmem⟩ := createAERequest_spec n p.nextIndex maxBatch hwf hsnap
      refine ⟨req, ?_, ?_, ?_⟩
      · rw [if_pos hm, hreq]
        rfl
      · intro _
        exact ⟨hlen, by omega, hmem⟩
      · intro hfalse
        rw [hm] at hfalse
        exact absurd hfalse (by simp)
    · obtain ⟨req, hreq, hlen, hmem⟩ := createAERequest_spec n p.nextIndex 0 hwf hsnap
      refine ⟨req, ?_, ?_, ?_⟩
      · rw [if_neg hm, hreq]
        rfl
      · intro htrue
        exact absurd htrue hm
      · intro _
        rw [← List.length_eq_zero]
        omega
  · intro nextIdx maxCnt
    obtain ⟨entries, hget, -, -⟩ := getLogEntries_spec n.logMgr
      (max nextIdx (n.logMgr.snapshotIndex + 1))
      (min (n.logMgr.lastIndex + 1) (max nextIdx (n.logMgr.snapshotIndex + 1) + maxCnt))
      hwf (by omega)
    unfold createAERequest
    show Option.map _
      (n.logMgr.GetLogEntries (max nextIdx (n.logMgr.snapshotIndex + 1))
        (min (n.logMgr.lastIndex + 1) (max nextIdx (n.logMgr.snapshotIndex + 1) + maxCnt))) ≠ none
    rw [hget]
    simp

/-- Leader fixture for the C7 witness: term-2 leader over three entries,
snapshot boundary -1, follower 1 matched up to index 0 (`nextIndex 1`). -/
def prepWitnessNode : RaftNode :=
  ⟨0, 3, NodeState.Leader, 2, 0, 0, [0],
    ⟨[⟨0, 1⟩, ⟨1, 1⟩, ⟨2, 2⟩], 2, 2, -1, -1, -1, "f"⟩,
    ⟨[(1, ⟨1, 0⟩), (2, ⟨0, -1⟩)]⟩⟩

/-- Witness for C7: replicating to the matched follower 1 with batch bound 3
yields an AppendEntries request of exactly 2 entries (indices 1 and 2). -/
theorem prepareReplicate_spec_witness :
    ∃ req, prepareReplicate prepWitnessNode 3 1 =
        some (ReplicationRequest.appendEntries req) ∧ (req.Entries.length : Int) = 2 := by
  obtain ⟨hsnap, hae, hclamp⟩ :=
    prepareReplicate_spec prepWitnessNode 3 1 ⟨1, 0⟩ rfl (by decide) (by decide) (by decide)
  obtain ⟨req, hreq, hmatch, hprobe⟩ := hae (by decide)
  refine ⟨req, hreq, ?_⟩
  rw [(hmatch (by decide)).1]
  decide

/-- Candidate fixture for the C5 witness: term-1 candidate in a 3-node
cluster holding its own vote. -/
def voteWitnessNode : RaftNode :=
  ⟨0, 3, NodeState.Candidate, 1, -1, 0, [0],
    ⟨[], -1, -1, -1, -1, -1, ""⟩,
    ⟨[(1, ⟨0, -1⟩), (2, ⟨0, -1⟩)]⟩⟩

/-- Witness for C5: a granted vote from node 1 at the current term gives
2 of 3 votes, so the candidate becomes Leader, points `currentLeader` at
itself, resets follower indices, and sends the heartbeat. -/
theorem handleRequestVoteReply_spec_witness :
    ∃ r, handleRequestVoteReply voteWitnessNode ⟨1, 1, 1, true⟩ = some r ∧
      r.1.nodeState = NodeState.Leader ∧ r.1.currentLeader = 0 ∧ r.2 = true ∧
      r.1.peerMgr = ⟨[(1, ⟨0, -1⟩), (2, ⟨0, -1⟩)]⟩ := by
  obtain ⟨r, hr, _, hrec⟩ :=
    handleRequestVoteReply_spec voteWitnessNode ⟨1, 1, 1, true⟩ (by decide)
  obtain ⟨h1, h2, h3, h4, h5⟩ := (hrec rfl rfl rfl).1 (by decide)
  refine ⟨r, hr, h3, ?_, h2, ?_⟩
  · rw [h4]
    rfl
  · rw [h5]
    decide

/-- Leader fixture for the C1 witness: term-2 leader over the log with
terms 1, 2, 2 at indices 0, 1, 2, nothing committed yet, and one of two
followers fully caught up (`matchIndex = 2`), so indices 1 and 2 have
quorum while index 0 carries the prior term 1. -/
def commitWitnessNode : RaftNode :=
  ⟨0, 3, NodeState.Leader, 2, 0, 0, [0],
    ⟨[⟨0, 1⟩, ⟨1, 2⟩, ⟨2, 2⟩], 2, 2, -1, -1, -1, ""⟩,
    ⟨[(1, ⟨3, 2⟩), (2, ⟨0, -1⟩)]⟩⟩

/-- Witness for C1: on the fixture, index 2 (current term, quorum) is a
lower bound for the advanced commit index. -/
theorem leaderCommit_spec_witness :
    (2 : Int) ≤ commitWitnessNode.leaderCommit.1.logMgr.commitIndex :=
  (leaderCommit_spec commitWitnessNode
      (by
        intro a b ha hab hb
        simp only [commitWitnessNode] at *
        have ha0 : 0 ≤ a := by omega
        have ha2 : a ≤ 2 := le_trans hab hb
        interval_cases a <;> interval_cases b <;> decide)
      (by decide)).1
    2 (by decide) (by decide) (by decide) (by decide)

/-- Witness for C10 (amended): a send on a channel with 3 pending triggers
succeeds, a send on a full channel blocks. -/
theorem triggerReplication_spec_witness :
    Peer.TriggerReplication ⟨replicationSigCapacity, 3⟩ =
      some ⟨replicationSigCapacity, 4⟩ ∧
    Peer.TriggerReplication ⟨replicationSigCapacity, 20⟩ = none :=
  ⟨(triggerReplication_spec ⟨replicationSigCapacity, 3⟩ rfl).1 (by decide),
   (triggerReplication_spec ⟨replicationSigCapacity, 20⟩ rfl).2 (by decide)⟩

end Raft
